import Mathlib

/-!
Verification of the Email-agent frontend core against its specification.

The definitions below are a shallow embedding of the TypeScript source:
pure functions become Lean functions, the zustand store updates become
explicit list transformations, and JavaScript strings are modelled via
their character lists so that every definition evaluates by kernel
reduction.  Each definition cites the source file and function it embeds.
-/

namespace EmailAgent

/-! ### JavaScript string primitives

JavaScript string operations used by the source (trim, toLowerCase,
split, startsWith, includes, default Array.sort comparison) modelled
structurally over the character list of a Lean string, so that concrete
evaluations reduce. -/

/-- Drop leading whitespace characters, as the `\s*` part of a regex or
the leading half of `String.prototype.trim`. -/
def dropWs : List Char → List Char
  | [] => []
  | c :: cs => if c.isWhitespace then dropWs cs else c :: cs

/-- `String.prototype.trim`: drop whitespace from both ends. -/
def jsTrim (s : String) : String :=
  ⟨dropWs ((dropWs s.data.reverse).reverse)⟩

/-- `String.prototype.toLowerCase` (ASCII-adequate, via `Char.toLower`). -/
def jsToLower (s : String) : String :=
  ⟨s.data.map Char.toLower⟩

/-- Whether the first list is an initial segment of the second,
as `String.prototype.startsWith`. -/
def charsStartWith : List Char → List Char → Bool
  | [], _ => true
  | _ :: _, [] => false
  | p :: ps, c :: cs => p = c && charsStartWith ps cs

/-- `String.prototype.startsWith`. -/
def strStartsWith (s pat : String) : Bool :=
  charsStartWith pat.data s.data

/-- Helper of `jsSplitComma`: accumulate the current field (reversed). -/
def splitCommaAux : List Char → List Char → List (List Char)
  | [], acc => [acc.reverse]
  | c :: cs, acc =>
    if c = ',' then acc.reverse :: splitCommaAux cs [] else splitCommaAux cs (c :: acc)

/-- `value.split(",")`: split on every comma; the empty string yields
one empty field, matching JavaScript. -/
def jsSplitComma (s : String) : List String :=
  (splitCommaAux s.data []).map (fun l => ⟨l⟩)

/-- Substring occurrence test over character lists, as
`String.prototype.includes`. -/
def containsChars : List Char → List Char → Bool
  | _, [] => true
  | [], _ :: _ => false
  | c :: cs, p :: ps => charsStartWith (p :: ps) (c :: cs) || containsChars cs (p :: ps)

/-- `s.includes(pat)`. -/
def strContains (s pat : String) : Bool :=
  containsChars s.data pat.data

/-- Code-unit comparison of two strings, as the default comparison of
`Array.prototype.sort` (the ids sorted by the source are ASCII). -/
def charsLe : List Char → List Char → Bool
  | [], _ => true
  | _ :: _, [] => false
  | a :: as, b :: bs =>
    if a.val < b.val then true else if b.val < a.val then false else charsLe as bs

/-- Insert a string into a list kept in ascending code-unit order. -/
def insertStr (s : String) : List String → List String
  | [] => [s]
  | x :: xs => if charsLe s.data x.data then s :: x :: xs else x :: insertStr s xs

/-- `Array.prototype.sort()` on strings: ascending code-unit order
(insertion sort; the source never sorts duplicate ids). -/
def sortStrings (l : List String) : List String :=
  l.foldr insertStr []

/-- `Array.prototype.join(",")`. -/
def joinComma : List String → String
  | [] => ""
  | [s] => s
  | s :: rest => s ++ "," ++ joinComma rest

/-! ### Data model — `frontend/types.ts`

Thin structural translation of the exported interfaces; optional fields
become `Option`. -/

/-- An extracted action item (`ActionItem` entry of `Email.action_items`
in `frontend/types.ts`); `completed` is an optional boolean there. -/
structure ActionItem where
  task : String
  deadline : Option String
  completed : Option Bool
  deriving Repr, DecidableEq

/-- The `Email` interface of `frontend/types.ts` (fields the verified
code reads; remaining optional metadata fields are omitted, and the
`to`/`cc` fields are spelled `toRecipients`/`ccRecipients` because `to`
cannot start a Lean structure-field line). -/
structure Email where
  id : String
  sender : String
  subject : String
  body : String
  timestamp : String
  read : Bool
  category : Option String
  action_items : Option (List ActionItem)
  source : Option String
  snippet : Option String
  toRecipients : Option (List String)
  ccRecipients : Option (List String)
  thread_id : Option String
  message_id : Option String
  deriving Repr, DecidableEq

/-- The `GmailStatus` interface of `frontend/types.ts`. -/
structure GmailStatus where
  authenticated : Bool
  email_address : Option String
  last_sync : Option String
  deriving Repr, DecidableEq

/-- A chat turn as kept by the frontend chat components
(`{ role, content }`; the role strings used are "user", "agent" and
"assistant"). -/
structure Message where
  role : String
  content : String
  deriving Repr, DecidableEq

/-- The body of the `POST /chat` request built by `api.chat` in
`frontend/lib/api.ts`. -/
structure ChatRequest where
  message : String
  email_id : Option String
  thread_email_ids : Option (List String)
  deriving Repr, DecidableEq

/-- Truthiness of `status?.authenticated` for
`status : GmailStatus | null`: `null` is falsy. -/
def statusAuthenticated : Option GmailStatus → Bool
  | some st => st.authenticated
  | none => false

/-- `email.source?.toLowerCase()`: `undefined` stays `undefined`. -/
def lowerSource (e : Email) : Option String :=
  e.source.map jsToLower

/-- `filterEmailsForDisplay` from `frontend/lib/api.ts` (store section):
when Gmail is authenticated keep only emails whose lowercased source is
"gmail" or "gmail_draft", otherwise keep exactly the others. -/
def filterEmailsForDisplay (emails : List Email) (status : Option GmailStatus) : List Email :=
  if statusAuthenticated status then
    emails.filter (fun e =>
      (lowerSource e == some "gmail") || (lowerSource e == some "gmail_draft"))
  else
    emails.filter (fun e =>
      !(lowerSource e == some "gmail") && !(lowerSource e == some "gmail_draft"))

/-- Whether an email belongs to the Gmail corpus in the sense of
`filterEmailsForDisplay`. -/
def isGmailSourced (e : Email) : Bool :=
  (lowerSource e == some "gmail") || (lowerSource e == some "gmail_draft")

/-! ### Thread grouping — `frontend/components/InboxViewer.tsx`

The viewer groups the displayed emails into threads keyed by a
normalized subject, and the selected thread (its full email list, when
collapsed) becomes the `selectedThreadEmails` that the agent chat later
sends as thread context. -/

/-- `normalizeSubject` from `InboxViewer.tsx`:
`subject.replace(/^(re|fwd|fw):\s*/gi, "").trim().toLowerCase()`.
The regex is anchored at the string start, so despite the `g` flag only
one leading marker is removed. -/
def normalizeSubject (subject : String) : String :=
  let ls := jsToLower subject
  let stripped : String :=
    if strStartsWith ls "re:" then ⟨dropWs (subject.data.drop 3)⟩
    else if strStartsWith ls "fwd:" then ⟨dropWs (subject.data.drop 4)⟩
    else if strStartsWith ls "fw:" then ⟨dropWs (subject.data.drop 3)⟩
    else subject
  jsToLower (jsTrim stripped)

/-- One step of the `filteredEmails.forEach` loop in `InboxViewer.tsx`:
append the email to the thread keyed by its normalized subject, creating
the thread at the end of the list when the key is new.  The
`latestTimestamp`/`hasUnread` presentation fields and the later
`Date`-based re-sorting of the source are omitted: the sort only
permutes emails within groups and groups among themselves, it never
changes which emails share a group. -/
def addToThreads (acc : List (String × List Email)) (e : Email) : List (String × List Email) :=
  let key := normalizeSubject e.subject
  if acc.any (fun p => p.1 == key) then
    acc.map (fun p => if p.1 == key then (p.1, p.2 ++ [e]) else p)
  else
    acc ++ [(key, [e])]

/-- The thread map built by `InboxViewer.tsx` over a list of emails:
an association of normalized-subject key to the emails of that thread,
in encounter order. -/
def groupThreads (emails : List Email) : List (String × List Email) :=
  emails.foldl addToThreads []

/-- `threadEmailIds` from `handleSend` in the `AgentChat` component
(`src/unnamed/part_002`, lines 79-82): the ids supplied together as
thread context to a chat request, present exactly when more than one
email is selected as thread context. -/
def threadContextIds (selectedThreadEmails : List Email) : Option (List String) :=
  if selectedThreadEmails.length > 1 then some (selectedThreadEmails.map (fun e => e.id))
  else none

/-! ### Store updates — `frontend/lib/api.ts` (zustand store) -/

/-- The `category` progress-event update (`ingestEmails`, lines
300-310): replace the category of every email with the updated id,
leaving all other fields and all other emails untouched. -/
def applyCategory (upd : Email) (emails : List Email) : List Email :=
  emails.map (fun e => if e.id = upd.id then { e with category := upd.category } else e)

/-- The `action_items` progress-event update (`ingestEmails`, lines
311-324). -/
def applyActionItems (upd : Email) (emails : List Email) : List Email :=
  emails.map (fun e => if e.id = upd.id then { e with action_items := upd.action_items } else e)

/-- JavaScript boolean negation of an optional boolean
(`!item.completed`): `undefined` and `false` are falsy. -/
def jsNot (b : Option Bool) : Bool :=
  !(b.getD false)

/-- A boolean holds of the content of an optional value (vacuously of
`none`); used to state side conditions executably. -/
def optionAll {α : Type} (p : α → Bool) : Option α → Bool
  | none => true
  | some a => p a

/-- The per-item map of `toggleActionItem`
(`item, idx) => idx === taskIndex ? { ...item, completed: !item.completed } : item`),
written over the indexed list as the JavaScript callback receives it. -/
def toggleCompleted (t : Nat) (items : List ActionItem) : List ActionItem :=
  items.enum.map (fun p =>
    if p.1 = t then { p.2 with completed := some (jsNot p.2.completed) } else p.2)

/-- `toggleActionItem` from the store in `frontend/lib/api.ts` (lines
410-426): toggle the completion flag of task `t` of the email with id
`eid`; emails without a matching id or without an `action_items` list
are untouched. -/
def toggleActionItem (eid : String) (t : Nat) (emails : List Email) : List Email :=
  emails.map (fun e =>
    if e.id = eid then
      match e.action_items with
      | some items => { e with action_items := some (toggleCompleted t items) }
      | none => e
    else e)

/-- The per-email filter of `deleteActionItem`
(`action_items.filter((_, idx) => idx !== taskIndex)`). -/
def removeAtIdx (t : Nat) (items : List ActionItem) : List ActionItem :=
  (items.enum.filter (fun p => p.1 != t)).map Prod.snd

/-- `deleteActionItem` from the store in `frontend/lib/api.ts` (lines
428-442): drop task `t` from the list of the email with id `eid`. -/
def deleteActionItem (eid : String) (t : Nat) (emails : List Email) : List Email :=
  emails.map (fun e =>
    if e.id = eid then
      match e.action_items with
      | some items => { e with action_items := some (removeAtIdx t items) }
      | none => e
    else e)

/-! ### Ingestion event stream — `ingestEmails` in `frontend/lib/api.ts`

The SSE loop of `ingestEmails` (lines 251-339) dispatches on
`data.type`.  An `error` event stops the run, refreshes the list from
the store and raises one alert, but only when its message contains
"Error calling Groq"; every other event type either updates one email
(`category`, `action_items`), refreshes the list (`complete`), or is
ignored (any other `error`, and `warning`). -/

/-- A typed event of the ingestion stream. -/
inductive IngestEvent where
  | error (message : String)
  | category (email : Email)
  | actionItems (email : Email)
  | warning (email : Email) (message : String)
  | complete
  deriving Repr, DecidableEq

/-- The observable outcome of running the event loop: the final email
list of the store state, the alert messages raised, and whether the
loop returned before consuming the whole stream. -/
structure IngestOutcome where
  allEmails : List Email
  alerts : List String
  stoppedEarly : Bool
  deriving Repr, DecidableEq

/-- The marker the source tests with
`data.message?.includes("Error calling Groq")`. -/
def groqMarker : String := "Error calling Groq"

/-- The event loop of `ingestEmails`, with the `await api.getEmails()`
refreshes of the `error` and `complete` branches supplied as the
`server` snapshot. -/
def processIngestEvents (server : List Email) : List IngestEvent → List Email → IngestOutcome
  | [], st => ⟨st, [], false⟩
  | IngestEvent.error msg :: rest, st =>
    if strContains msg groqMarker then ⟨server, [msg], true⟩
    else processIngestEvents server rest st
  | IngestEvent.category upd :: rest, st =>
    processIngestEvents server rest (applyCategory upd st)
  | IngestEvent.actionItems upd :: rest, st =>
    processIngestEvents server rest (applyActionItems upd st)
  | IngestEvent.warning _ _ :: rest, st =>
    processIngestEvents server rest st
  | IngestEvent.complete :: rest, _ =>
    processIngestEvents server rest server

/-! ### Agent chat — `AgentChat` in `src/unnamed/part_002`

The per-email/per-thread chat keeps a history record keyed by a chat
key; `handleSend` optimistically appends the user turn, calls
`api.chat`, and appends either the response or a fallback message. -/

/-- The chat history record (`Record<string, Message[]>`), as an
association list with unique keys.  `historySet` models the object
update `{ ...prev, [key]: value }`: replace the binding in place, or
append a new one. -/
abbrev History := List (String × List Message)

/-- Read `history[key]` (absent keys give `undefined`). -/
def historyLookup : History → String → Option (List Message)
  | [], _ => none
  | p :: t, k => if p.1 = k then some p.2 else historyLookup t k

/-- Write `history[key] = value` by object spread. -/
def historySet : History → String → List Message → History
  | [], k, v => [(k, v)]
  | p :: t, k, v => if p.1 = k then (k, v) :: t else p :: historySet t k v

/-- `chatKey` from `AgentChat` (lines 31-39): thread views use the
sorted, comma-joined email ids, single views the selected id. -/
def chatKey (selectedEmailId : Option String) (selectedThreadEmails : List Email) : Option String :=
  match selectedEmailId with
  | none => none
  | some sid =>
    if selectedThreadEmails.length > 1 then
      some ("thread:" ++ joinComma (sortStrings (selectedThreadEmails.map (fun e => e.id))))
    else
      some ("email:" ++ sid)

/-- The greeting seeded into an empty history by `handleSend`
(lines 66-71). -/
def agentGreeting (threadEmails : List Email) : String :=
  if threadEmails.length > 1 then
    s!"Hi! I\x27m your Email Agent. I have context of all {threadEmails.length} emails in this thread. Ask me anything!"
  else
    "Hi! I\x27m your Email Agent. Ask me anything about this email."

/-- The fallback content appended by the `catch` branch of `handleSend`
(lines 88-93). -/
def agentFallback : String := "Sorry, I encountered an error."

/-- The outcome of `api.chat`, as observed by the caller: either the
response text or a rejected request. -/
inductive ChatCallResult where
  | success (response : String)
  | failure
  deriving Repr, DecidableEq

/-- The chat request `handleSend` passes to `api.chat`
(lines 77-82 together with `api.chat` in `frontend/lib/api.ts`). -/
def buildChatRequest (input sid : String) (threadEmails : List Email) : ChatRequest :=
  { message := input
    email_id := some sid
    thread_email_ids := threadContextIds threadEmails }

/-- `handleSend` of `AgentChat` (lines 58-96) as a state transformer:
given the inputs, the current history and the result of the backend
call, return the final history, the request that was sent (if any) and
the final `isLoading` flag. -/
def agentHandleSend (input : String) (selectedEmailId : Option String)
    (threadEmails : List Email) (history : History) (isLoading0 : Bool)
    (call : ChatCallResult) : History × Option ChatRequest × Bool :=
  match chatKey selectedEmailId threadEmails, selectedEmailId with
  | some key, some sid =>
    if jsTrim input = "" then (history, none, isLoading0)
    else
      let base :=
        match historyLookup history key with
        | some ms => ms
        | none => [⟨"agent", agentGreeting threadEmails⟩]
      let h1 := historySet history key (base ++ [⟨"user", input⟩])
      let req := buildChatRequest input sid threadEmails
      match call with
      | ChatCallResult.success resp =>
        (historySet h1 key (((historyLookup h1 key).getD []) ++ [⟨"agent", resp⟩]), some req, false)
      | ChatCallResult.failure =>
        (historySet h1 key (((historyLookup h1 key).getD []) ++ [⟨"agent", agentFallback⟩]), some req, false)
  | _, _ => (history, none, isLoading0)

/-! ### General chat — `frontend/components/Chat.tsx`

The standalone chat page keeps a flat message list; the `Date`
timestamps attached to each message are presentation data outside this
embedding. -/

/-- The fallback content of the `catch` branch of `handleSend` in
`Chat.tsx` (lines 67-75). -/
def generalChatFallback : String := "Sorry, I encountered an error. Please try again."

/-- `handleSend` of `Chat.tsx` (lines 46-78) as a state transformer on
the message list and the loading flag. -/
def generalChatSend (input : String) (isLoading0 : Bool) (messages : List Message)
    (call : ChatCallResult) : List Message × Bool :=
  if jsTrim input = "" || isLoading0 then (messages, isLoading0)
  else
    match call with
    | ChatCallResult.success r => (messages ++ [⟨"user", input⟩, ⟨"assistant", r⟩], false)
    | ChatCallResult.failure =>
      (messages ++ [⟨"user", input⟩, ⟨"assistant", generalChatFallback⟩], false)

/-! ### Gmail composer — `frontend/components/GmailComposer.tsx` -/

/-- The `ComposerConfig` interface fields read by `handleSend`. -/
structure ComposerConfig where
  threadId : Option String
  inReplyTo : Option String
  deriving Repr, DecidableEq

/-- The payload of `api.sendGmail` as assembled by `handleSend`. -/
structure SendGmailPayload where
  toRecipients : List String
  ccRecipients : List String
  bccRecipients : List String
  subject : String
  body : String
  thread_id : Option String
  in_reply_to : Option String
  deriving Repr, DecidableEq

/-- `parseRecipients` from `GmailComposer.tsx` (lines 24-28):
`value.split(",").map(trim).filter(Boolean)`. -/
def parseRecipients (value : String) : List String :=
  ((jsSplitComma value).map jsTrim).filter (fun s => !(s == ""))

/-- What `handleSend` of the composer does with the form state: either
reject with an error message before any API call, or attempt the send
with the assembled payload. -/
inductive ComposerOutcome where
  | rejected (error : String)
  | attempted (payload : SendGmailPayload)
  deriving Repr, DecidableEq

/-- `handleSend` of `GmailComposer.tsx` (lines 53-80): an empty parsed
recipient list sets an error and returns without calling `api.sendGmail`;
otherwise the payload is sent. -/
def composerHandleSend (toField ccField bccField subject body : String)
    (config : ComposerConfig) : ComposerOutcome :=
  let toList := parseRecipients toField
  if toList.length = 0 then
    ComposerOutcome.rejected "At least one recipient is required."
  else
    ComposerOutcome.attempted
      { toRecipients := toList
        ccRecipients := parseRecipients ccField
        bccRecipients := parseRecipients bccField
        subject := subject
        body := body
        thread_id := config.threadId
        in_reply_to := config.inReplyTo }

/-! ### Retrieval context builder — modelled from the spec

The FastAPI backend of this repository is not under `src/`; only its
frontend callers are.  The context assembly for chat is therefore
modelled from the specification. -/

/-- A retrieval hit: an email together with its similarity score, as
returned ranked by the Vector Index. -/
structure ScoredEmail where
  email : Email
  score : Int
  deriving Repr, DecidableEq

/-- Crude size measure of a context bundle, used only for the input
budget truncation. -/
def contextSize (l : List Email) : Nat :=
  (l.map (fun e => e.body.length)).sum

/-- Drop retrieved emails from the end (lowest similarity first, the
input being ranked by descending similarity) until the bundle fits the
budget; the focus block is never touched. -/
def dropToBudget (budget focusSize : Nat) : Nat → List Email → List Email
  | 0, r => r
  | n + 1, r =>
    if focusSize + contextSize r ≤ budget then r
    else dropToBudget budget focusSize n r.dropLast

/-- Modelled from the spec: the Retrieval Context Builder of the
backend (section 4.4), which is not under `src/`.  Focus emails are
looked up in the store and included first, verbatim and unconditionally;
the ranked retrieval results are then filtered of anything already
present via focus, capped at `top_k`, and truncated to the input budget
by dropping the lowest-similarity items; focus emails are never
truncated. -/
def buildChatContext (store : List Email) (focusIds : List String)
    (retrieved : List ScoredEmail) (topK budget : Nat) : List Email :=
  let focus := store.filter (fun e => focusIds.contains e.id)
  let ranked := ((retrieved.filter (fun r => !(focusIds.contains r.email.id))).map
      (fun r => r.email)).take topK
  focus ++ dropToBudget budget (contextSize focus) ranked.length ranked

/-! ### Concrete fixtures

Emails used by the concrete counterexamples and witnesses. -/

/-- An email with every field blank, the base of the concrete examples. -/
def baseEmail : Email :=
  { id := "", sender := "", subject := "", body := "", timestamp := "", read := false,
    category := none, action_items := none, source := none, snippet := none,
    toRecipients := none, ccRecipients := none, thread_id := none, message_id := none }

/-- First message of a subject-grouped pair: thread id `t1`. -/
def cexThreadA : Email :=
  { baseEmail with id := "m1", subject := "Project Update", thread_id := some "t1" }

/-- Second message of the pair: same subject up to a reply marker, but a
different thread id `t2`. -/
def cexThreadB : Email :=
  { baseEmail with id := "m2", subject := "Re: project update", thread_id := some "t2" }

/-- A plain email used by the ingestion examples. -/
def cexIngestA : Email := { baseEmail with id := "e1", subject := "Standup" }

/-- A second plain email used by the ingestion examples. -/
def cexIngestB : Email := { baseEmail with id := "e2", subject := "Invoice" }

/-- An email carrying one action item whose completion flag is absent
(`completed` missing), as the mock inbox JSON allows. -/
def cexToggleEmail : Email :=
  { baseEmail with
    id := "e1",
    action_items := some [⟨"file report", none, none⟩] }

/-- A Gmail-sourced email. -/
def cexGmailEmail : Email := { baseEmail with id := "g1", source := some "gmail" }

/-- A locally sourced (mock) email. -/
def cexLocalEmail : Email := { baseEmail with id := "l1", source := some "mock" }

/-! ## Helper lemmas -/

/-- Writing a key and reading it back yields the written value. -/
theorem historyLookup_historySet_self (h : History) (k : String) (v : List Message) :
    historyLookup (historySet h k v) k = some v := by
  induction h with
  | nil => simp [historySet, historyLookup]
  | cons p t ih =>
    by_cases hp : p.1 = k
    · simp [historySet, historyLookup, hp]
    · simp [historySet, historyLookup, hp, ih]

/-- Writing one key leaves every other key untouched. -/
theorem historyLookup_historySet_ne (h : History) (k k' : String) (v : List Message)
    (hne : k ≠ k') : historyLookup (historySet h k v) k' = historyLookup h k' := by
  induction h with
  | nil => simp [historySet, historyLookup, hne]
  | cons p t ih =>
    by_cases hp : p.1 = k
    · subst hp
      simp [historySet, historyLookup, hne]
    · have hne' : k' ≠ k := Ne.symm hne
      by_cases hp' : p.1 = k'
      · simp [historySet, historyLookup, hp, hp', hne']
      · simp [historySet, historyLookup, hp, hp', ih]

/-- `addToThreads` preserves the grouping invariant: every email of
every thread normalizes to the key of its thread. -/
theorem addToThreads_key (acc : List (String × List Email)) (e : Email)
    (hacc : ∀ p ∈ acc, ∀ a ∈ p.2, normalizeSubject a.subject = p.1) :
    ∀ p ∈ addToThreads acc e, ∀ a ∈ p.2, normalizeSubject a.subject = p.1 := by
  intro p hp
  unfold addToThreads at hp
  by_cases hany : acc.any (fun q => q.1 == normalizeSubject e.subject)
  · rw [if_pos hany] at hp
    obtain ⟨q, hq, hfq⟩ := List.mem_map.mp hp
    by_cases hqk : (q.1 == normalizeSubject e.subject) = true
    · rw [if_pos hqk] at hfq
      subst hfq
      intro a ha
      rcases List.mem_append.mp ha with h1 | h2
      · exact hacc q hq a h1
      · have : a = e := by simpa using h2
        subst this
        exact (beq_iff_eq.mp hqk).symm
    · rw [if_neg hqk] at hfq
      subst hfq
      exact hacc q hq
  · rw [if_neg hany] at hp
    rcases List.mem_append.mp hp with h1 | h2
    · exact hacc p h1
    · have : p = (normalizeSubject e.subject, [e]) := by simpa using h2
      subst this
      intro a ha
      have : a = e := by simpa using ha
      subst this
      rfl

/-- Grouping invariant of the full thread map. -/
theorem groupThreads_key (emails : List Email) :
    ∀ p ∈ groupThreads emails, ∀ a ∈ p.2, normalizeSubject a.subject = p.1 := by
  suffices h : ∀ acc, (∀ p ∈ acc, ∀ a ∈ p.2, normalizeSubject a.subject = p.1) →
      ∀ p ∈ emails.foldl addToThreads acc, ∀ a ∈ p.2, normalizeSubject a.subject = p.1 by
    exact h [] (by simp)
  induction emails with
  | nil => intro acc hacc; simpa using hacc
  | cons e es ih =>
    intro acc hacc
    rw [List.foldl_cons]
    exact ih (addToThreads acc e) (addToThreads_key acc e hacc)

/-- Filtering an enumeration for indices different from a key below the
start index keeps everything. -/
theorem filter_enumFrom_keep {α : Type} (l : List α) :
    ∀ n k, k < n → ((List.enumFrom n l).filter (fun p => p.1 != k)).map Prod.snd = l := by
  induction l with
  | nil => intro n k _; rfl
  | cons a t ih =>
    intro n k hk
    have hne : (n != k) = true := by simp; omega
    simp only [List.enumFrom_cons, List.filter_cons, hne, List.map_cons, if_true]
    rw [ih (n + 1) k (Nat.lt_succ_of_lt hk)]

/-- Filtering an enumeration on index disagreement erases exactly one
position. -/
theorem enumFrom_filter_ne_eraseIdx {α : Type} (l : List α) :
    ∀ n k, n ≤ k →
      ((List.enumFrom n l).filter (fun p => p.1 != k)).map Prod.snd = l.eraseIdx (k - n) := by
  induction l with
  | nil => intro n k _; rfl
  | cons a t ih =>
    intro n k hnk
    rcases Nat.lt_or_ge n k with hlt | hge
    · have hne : (n != k) = true := by simp; omega
      have hkn : k - n = (k - (n + 1)) + 1 := by omega
      simp only [List.enumFrom_cons, List.filter_cons, hne, List.map_cons, if_true]
      rw [ih (n + 1) k hlt, hkn, List.eraseIdx_cons_succ]
    · have hk : k = n := Nat.le_antisymm hge hnk
      subst hk
      have hne : (k != k) = false := by simp
      simp only [List.enumFrom_cons, List.filter_cons, hne, if_false, Nat.sub_self]
      rw [List.eraseIdx_zero]  -- eraseIdx at 0 drops the head
      exact filter_enumFrom_keep t (k + 1) k (Nat.lt_succ_self k)

/-- `removeAtIdx` is `List.eraseIdx`. -/
theorem removeAtIdx_eq_eraseIdx (t : Nat) (items : List ActionItem) :
    removeAtIdx t items = items.eraseIdx t := by
  have h := enumFrom_filter_ne_eraseIdx items 0 t (Nat.zero_le t)
  simpa [removeAtIdx, List.enum] using h

/-- Pointwise description of `toggleCompleted`. -/
theorem toggleCompleted_getElem (t : Nat) (items : List ActionItem) (j : Nat) :
    (toggleCompleted t items)[j]? =
      items[j]?.map (fun it =>
        if j = t then { it with completed := some (jsNot it.completed) } else it) := by
  cases h : items[j]? with
  | none => simp [toggleCompleted, List.getElem?_map, List.getElem?_enum, h]
  | some it => simp [toggleCompleted, List.getElem?_map, List.getElem?_enum, h]

/-- `filterEmailsForDisplay` commutes with any per-email map that keeps
the source field. -/
theorem filterDisplay_map_comm (f : Email → Email) (hf : ∀ e, (f e).source = e.source)
    (emails : List Email) (status : Option GmailStatus) :
    filterEmailsForDisplay (emails.map f) status = (filterEmailsForDisplay emails status).map f := by
  have hls : ∀ e, lowerSource (f e) = lowerSource e := fun e => by
    simp [lowerSource, hf]
  unfold filterEmailsForDisplay
  split
  · rw [List.filter_map]
    congr 1
    apply List.filter_congr
    intro x _
    simp [Function.comp, hls]
  · rw [List.filter_map]
    congr 1
    apply List.filter_congr
    intro x _
    simp [Function.comp, hls]

/-! ## Claims -/

/-- C1, counterexample: two emails whose subjects agree up to a reply
marker but whose thread ids differ are grouped into one thread, and the
whole group is what gets supplied as thread context — so the grouping
is not by thread id. -/
theorem thread_grouping_by_thread_id_cex :
    groupThreads [cexThreadA, cexThreadB] = [("project update", [cexThreadA, cexThreadB])] ∧
    threadContextIds [cexThreadA, cexThreadB] = some ["m1", "m2"] ∧
    cexThreadA.thread_id ≠ cexThreadB.thread_id := by
  refine ⟨by decide, by decide, by decide⟩

/-- C1, amended: the emails supplied together as thread context to a
chat request are grouped by normalized subject text — every member of a
thread group normalizes to the key of the group, any two members share
the same normalized subject, and the ids sent are exactly the ids of
the group. -/
theorem thread_context_shares_normalized_subject (emails : List Email) (key : String)
    (grp : List Email) (hgrp : (key, grp) ∈ groupThreads emails) :
    (∀ a ∈ grp, normalizeSubject a.subject = key) ∧
    (∀ a ∈ grp, ∀ b ∈ grp, normalizeSubject a.subject = normalizeSubject b.subject) ∧
    (∀ ids, threadContextIds grp = some ids → ids = grp.map (fun e => e.id)) := by
  have h := groupThreads_key emails (key, grp) hgrp
  refine ⟨h, fun a ha b hb => (h a ha).trans (h b hb).symm, ?_⟩
  intro ids hids
  unfold threadContextIds at hids
  split at hids
  · exact (Option.some.inj hids).symm
  · cases hids

/-- C1, witness: the amended statement evaluated on the concrete pair. -/
theorem thread_context_shares_normalized_subject_witness :
    normalizeSubject cexThreadB.subject = "project update" :=
  (thread_context_shares_normalized_subject [cexThreadA, cexThreadB] "project update"
    [cexThreadA, cexThreadB] (by decide)).1 cexThreadB (by decide)

/-- C2: the displayed view draws from exactly one corpus — under an
authenticated status every displayed email is Gmail-sourced, under a
non-authenticated one none is, and every input email is displayed under
exactly one of the two authentication states. -/
theorem display_corpus_exclusivity (emails : List Email) (status stA stB : Option GmailStatus)
    (e : Email) :
    (statusAuthenticated status = true →
      e ∈ filterEmailsForDisplay emails status → isGmailSourced e = true) ∧
    (statusAuthenticated status = false →
      e ∈ filterEmailsForDisplay emails status → isGmailSourced e = false) ∧
    (statusAuthenticated stA = true → statusAuthenticated stB = false → e ∈ emails →
      (e ∈ filterEmailsForDisplay emails stA ↔ e ∉ filterEmailsForDisplay emails stB)) := by
  refine ⟨?_, ?_, ?_⟩
  · intro hA hmem
    unfold filterEmailsForDisplay at hmem
    rw [hA] at hmem
    simp only [if_true] at hmem
    exact (List.mem_filter.mp hmem).2
  · intro hA hmem
    unfold filterEmailsForDisplay at hmem
    rw [hA] at hmem
    simp only [Bool.false_eq_true, if_false] at hmem
    have h2 := (List.mem_filter.mp hmem).2
    simp only [Bool.and_eq_true, Bool.not_eq_true'] at h2
    simp [isGmailSourced, h2.1, h2.2]
  · intro hA hB he
    unfold filterEmailsForDisplay
    rw [hA, hB]
    simp only [if_true, Bool.false_eq_true, if_false]
    have h1 : e ∈ emails.filter (fun x =>
        (lowerSource x == some "gmail") || (lowerSource x == some "gmail_draft")) ↔
        isGmailSourced e = true := by
      rw [List.mem_filter]
      simp [isGmailSourced, he]
    have h2 : e ∈ emails.filter (fun x =>
        !(lowerSource x == some "gmail") && !(lowerSource x == some "gmail_draft")) ↔
        ¬ isGmailSourced e = true := by
      rw [List.mem_filter]
      simp [isGmailSourced, he]
    rw [h1, h2]
    tauto

/-- C2, witness: a Gmail email is displayed when authenticated and not
otherwise. -/
theorem display_corpus_exclusivity_witness :
    cexGmailEmail ∈ filterEmailsForDisplay [cexGmailEmail, cexLocalEmail]
        (some ⟨true, none, none⟩) ↔
    cexGmailEmail ∉ filterEmailsForDisplay [cexGmailEmail, cexLocalEmail] none :=
  (display_corpus_exclusivity [cexGmailEmail, cexLocalEmail] none
    (some ⟨true, none, none⟩) none cexGmailEmail).2.2 rfl rfl (by decide)

/-- C3, counterexample: an error event whose message does not contain
"Error calling Groq" neither stops the stream nor raises an alert — the
following category event is still applied — so termination does not
happen for every error event. -/
theorem ingest_error_event_not_terminal_cex :
    processIngestEvents [cexIngestA, cexIngestB]
      [IngestEvent.error "Error calling Ollama: connection refused",
       IngestEvent.category { cexIngestB with category := some "Work" }]
      [cexIngestA, cexIngestB] =
      ⟨[cexIngestA, { cexIngestB with category := some "Work" }], [], false⟩ := by
  decide

/-- C3, amended: an error event stops the remainder of the stream, with
the raw message surfaced as the single alert and the displayed list
refreshed from the store (retaining all previously committed updates,
with no rollback), exactly when the message contains
"Error calling Groq"; streams free of such error messages are never
stopped early. -/
theorem ingest_groq_error_terminal (server st : List Email) (rest : List IngestEvent)
    (msg : String) (hmsg : strContains msg groqMarker = true) :
    processIngestEvents server (IngestEvent.error msg :: rest) st = ⟨server, [msg], true⟩ ∧
    (∀ events : List IngestEvent,
      (∀ m, IngestEvent.error m ∈ events → strContains m groqMarker = false) →
      (processIngestEvents server events st).stoppedEarly = false) := by
  constructor
  · simp [processIngestEvents, hmsg]
  · suffices haux : ∀ (events : List IngestEvent) (st' : List Email),
        (∀ m, IngestEvent.error m ∈ events → strContains m groqMarker = false) →
        (processIngestEvents server events st').stoppedEarly = false from
      fun events h => haux events st h
    intro events
    induction events with
    | nil => intro st' _; rfl
    | cons ev evs ih =>
      intro st' hno
      cases ev with
      | error m =>
        have hm : strContains m groqMarker = false := hno m (List.mem_cons_self _ _)
        simp only [processIngestEvents, hm, Bool.false_eq_true, if_false]
        exact ih st' (fun m' hm' => hno m' (List.mem_cons_of_mem _ hm'))
      | category upd =>
        exact ih _ (fun m' hm' => hno m' (List.mem_cons_of_mem _ hm'))
      | actionItems upd =>
        exact ih _ (fun m' hm' => hno m' (List.mem_cons_of_mem _ hm'))
      | warning upd m =>
        exact ih _ (fun m' hm' => hno m' (List.mem_cons_of_mem _ hm'))
      | complete =>
        exact ih _ (fun m' hm' => hno m' (List.mem_cons_of_mem _ hm'))

/-- C3, witness: a Groq-marked error terminates the run at once. -/
theorem ingest_groq_error_terminal_witness :
    processIngestEvents [cexIngestA]
      [IngestEvent.error "Error calling Groq: 401", IngestEvent.complete] [] =
      ⟨[cexIngestA], ["Error calling Groq: 401"], true⟩ :=
  (ingest_groq_error_terminal [cexIngestA] [] [IngestEvent.complete]
    "Error calling Groq: 401" (by decide)).1

/-- C4: a chat request carrying a focus email id always carries that id
(`handleSend` passes `selectedEmailId` unconditionally), and the
context built for it contains the focus email itself — hence its full
body verbatim — for every retrieval result whatsoever, i.e.
independently of any similarity score. -/
theorem focus_email_in_context (store : List Email) (fid : String)
    (retrieved : List ScoredEmail) (topK budget : Nat) (e : Email)
    (input sid : String) (threadEmails : List Email)
    (he : e ∈ store) (hid : e.id = fid) :
    e ∈ buildChatContext store [fid] retrieved topK budget ∧
    (buildChatRequest input sid threadEmails).email_id = some sid := by
  refine ⟨?_, rfl⟩
  unfold buildChatContext
  apply List.mem_append_left
  apply List.mem_filter.mpr
  exact ⟨he, by simp [hid]⟩

/-- C4, witness: the focus email of a one-email store is in the context
even with an empty retrieval and a zero budget. -/
theorem focus_email_in_context_witness :
    cexIngestA ∈ buildChatContext [cexIngestA] ["e1"] [] 5 0 :=
  (focus_email_in_context [cexIngestA] "e1" [] 5 0 cexIngestA "query" "e1" []
    (by decide) (by decide)).1

/-- C5: a category progress event rewrites only the category field of
the email whose id matches, keeps every other email of the full list
unchanged position by position, and updates the displayed list by the
very same per-email map; symmetrically, an action-items event rewrites
only the `action_items` field. -/
theorem progress_event_frame (upd : Email) (emails : List Email)
    (status : Option GmailStatus) :
    (∀ (i : Nat) (e : Email), emails[i]? = some e →
      (e.id ≠ upd.id →
        (applyCategory upd emails)[i]? = some e ∧
        (applyActionItems upd emails)[i]? = some e) ∧
      (e.id = upd.id →
        (applyCategory upd emails)[i]? = some { e with category := upd.category } ∧
        (applyActionItems upd emails)[i]? = some { e with action_items := upd.action_items })) ∧
    filterEmailsForDisplay (applyCategory upd emails) status =
      applyCategory upd (filterEmailsForDisplay emails status) ∧
    filterEmailsForDisplay (applyActionItems upd emails) status =
      applyActionItems upd (filterEmailsForDisplay emails status) := by
  refine ⟨?_, ?_, ?_⟩
  · intro i e hi
    constructor
    · intro hne
      constructor
      · simp [applyCategory, List.getElem?_map, hi, hne]
      · simp [applyActionItems, List.getElem?_map, hi, hne]
    · intro heq
      constructor
      · simp [applyCategory, List.getElem?_map, hi, heq]
      · simp [applyActionItems, List.getElem?_map, hi, heq]
  · exact filterDisplay_map_comm _
      (fun e => by by_cases h : e.id = upd.id <;> simp [h]) emails status
  · exact filterDisplay_map_comm _
      (fun e => by by_cases h : e.id = upd.id <;> simp [h]) emails status

/-- C5, witness: the frame property evaluated on a concrete pair. -/
theorem progress_event_frame_witness :
    (applyCategory { cexIngestB with category := some "Work" }
      [cexIngestA, cexIngestB])[0]? = some cexIngestA ∧
    (applyCategory { cexIngestB with category := some "Work" }
      [cexIngestA, cexIngestB])[1]? = some { cexIngestB with category := some "Work" } := by
  have h := (progress_event_frame { cexIngestB with category := some "Work" }
    [cexIngestA, cexIngestB] none).1
  refine ⟨((h 0 cexIngestA (by decide)).1 (by decide)).1, ?_⟩
  have h2 := ((h 1 cexIngestB (by decide)).2 (by decide)).1
  simpa using h2

/-- C6: deleting action item `t` of the email with the given id
compacts the list — indices below `t` are preserved, indices above `t`
shift down by one, the length drops by one — and every other email, as
well as an email without a task list, is unchanged. -/
theorem delete_action_item_compacts (eid : String) (t : Nat) (emails : List Email) :
    (∀ (i : Nat) (e : Email), emails[i]? = some e →
      (e.id ≠ eid → (deleteActionItem eid t emails)[i]? = some e) ∧
      (e.action_items = none → (deleteActionItem eid t emails)[i]? = some e) ∧
      (∀ items, e.id = eid → e.action_items = some items →
        (deleteActionItem eid t emails)[i]? =
          some { e with action_items := some (removeAtIdx t items) })) ∧
    (∀ items : List ActionItem, t < items.length →
      (removeAtIdx t items).length = items.length - 1 ∧
      (∀ j, j < t → (removeAtIdx t items)[j]? = items[j]?) ∧
      (∀ j, t < j → j < items.length → (removeAtIdx t items)[j - 1]? = items[j]?)) := by
  constructor
  · intro i e hi
    refine ⟨?_, ?_, ?_⟩
    · intro hne
      simp [deleteActionItem, List.getElem?_map, hi, hne]
    · intro hnone
      by_cases hid : e.id = eid
      · simp [deleteActionItem, List.getElem?_map, hi, hid, hnone]
      · simp [deleteActionItem, List.getElem?_map, hi, hid]
    · intro items hid hsome
      simp [deleteActionItem, List.getElem?_map, hi, hid, hsome]
  · intro items ht
    rw [removeAtIdx_eq_eraseIdx, List.eraseIdx_eq_take_drop_succ]
    have hlen : (List.take t items).length = t := by
      rw [List.length_take]
      omega
    refine ⟨?_, ?_, ?_⟩
    · rw [List.length_append, List.length_drop, hlen]
      omega
    · intro j hj
      rw [List.getElem?_append]
      rw [if_pos (by omega : j < (List.take t items).length)]
      rw [List.getElem?_take, if_pos hj]
    · intro j hjt hjl
      rw [List.getElem?_append_right (by omega : (List.take t items).length ≤ j - 1)]
      rw [hlen, List.getElem?_drop]
      have harith : t + 1 + (j - 1 - t) = j := by omega
      rw [harith]

/-- C6, witness: deleting index 0 of a two-item list keeps the second
item at index 0 and drops the length to 1. -/
theorem delete_action_item_compacts_witness :
    (removeAtIdx 0 [(⟨"a", none, none⟩ : ActionItem), ⟨"b", none, some true⟩]).length = 1 ∧
    (removeAtIdx 0 [(⟨"a", none, none⟩ : ActionItem), ⟨"b", none, some true⟩])[0]? =
      some ⟨"b", none, some true⟩ := by
  have h := (delete_action_item_compacts "e1" 0 []).2
    [(⟨"a", none, none⟩ : ActionItem), ⟨"b", none, some true⟩] (by decide)
  refine ⟨h.1, ?_⟩
  have h2 := h.2.2 1 (by decide) (by decide)
  exact h2.trans (by decide)

/-- C7: when the backend chat call rejects, both chat components
terminate normally with the loading flag reset and a fallback assistant
message appended in place of a response. -/
theorem chat_failure_fallback (input sid : String) (threadEmails : List Email)
    (history : History) (il : Bool) (msgs : List Message) (k : String)
    (hk : chatKey (some sid) threadEmails = some k)
    (hin : jsTrim input ≠ "") :
    (agentHandleSend input (some sid) threadEmails history il ChatCallResult.failure).2.2 =
      false ∧
    historyLookup
      (agentHandleSend input (some sid) threadEmails history il ChatCallResult.failure).1 k =
      some (((historyLookup history k).getD [⟨"agent", agentGreeting threadEmails⟩]) ++
        [⟨"user", input⟩, ⟨"agent", agentFallback⟩]) ∧
    generalChatSend input false msgs ChatCallResult.failure =
      (msgs ++ [⟨"user", input⟩, ⟨"assistant", generalChatFallback⟩], false) := by
  refine ⟨?_, ?_, ?_⟩
  · simp only [agentHandleSend, hk]
    rw [if_neg hin]
  · simp only [agentHandleSend, hk]
    rw [if_neg hin]
    cases hbase : historyLookup history k with
    | none =>
      simp only [hbase, Option.getD]
      rw [historyLookup_historySet_self, historyLookup_historySet_self]
      simp [List.append_assoc]
    | some ms =>
      simp only [hbase, Option.getD]
      rw [historyLookup_historySet_self, historyLookup_historySet_self]
      simp [List.append_assoc]
  · simp [generalChatSend, hin]

/-- C7, witness: a failing call on a fresh per-email chat yields the
greeting, the user turn and the fallback, with loading reset. -/
theorem chat_failure_fallback_witness :
    historyLookup
      (agentHandleSend "hello" (some "1") [] [] false ChatCallResult.failure).1 "email:1" =
      some [⟨"agent", agentGreeting []⟩, ⟨"user", "hello"⟩, ⟨"agent", agentFallback⟩] := by
  have h := (chat_failure_fallback "hello" "1" [] [] false [] "email:1"
    (by decide) (by decide)).2.1
  simpa using h

/-- C8: session isolation — the full send path under chat key A leaves
the turn list stored under any other key B untouched, as does the
elementary append primitive itself. -/
theorem session_isolation (input sid : String) (threadEmails : List Email)
    (history : History) (il : Bool) (call : ChatCallResult) (kA kB : String)
    (hk : chatKey (some sid) threadEmails = some kA) (hne : kA ≠ kB) :
    historyLookup (agentHandleSend input (some sid) threadEmails history il call).1 kB =
      historyLookup history kB ∧
    (∀ v, historyLookup (historySet history kA v) kB = historyLookup history kB) := by
  constructor
  · simp only [agentHandleSend, hk]
    by_cases hin : jsTrim input = ""
    · rw [if_pos hin]
    · rw [if_neg hin]
      cases call with
      | success resp =>
        simp only []
        rw [historyLookup_historySet_ne _ _ _ _ hne, historyLookup_historySet_ne _ _ _ _ hne]
      | failure =>
        simp only []
        rw [historyLookup_historySet_ne _ _ _ _ hne, historyLookup_historySet_ne _ _ _ _ hne]
  · intro v
    exact historyLookup_historySet_ne history kA kB v hne

/-- C8, witness: a send under `email:1` does not disturb the turns of
`email:2`. -/
theorem session_isolation_witness :
    historyLookup
      (agentHandleSend "hi" (some "1") [] [("email:2", [⟨"user", "x"⟩])] false
        (ChatCallResult.success "ok")).1 "email:2" = some [⟨"user", "x"⟩] := by
  have h := (session_isolation "hi" "1" [] [("email:2", [⟨"user", "x"⟩])] false
    (ChatCallResult.success "ok") "email:1" "email:2" (by decide) (by decide)).1
  exact h.trans (by decide)

/-- C9, counterexample: toggling an action item whose completion flag
is absent twice does not restore the original state — the flag ends up
explicitly `false` instead of absent — so the toggle is not an
involution on every store state. -/
theorem toggle_twice_not_identity_cex :
    toggleActionItem "e1" 0 (toggleActionItem "e1" 0 [cexToggleEmail]) ≠ [cexToggleEmail] ∧
    toggleActionItem "e1" 0 (toggleActionItem "e1" 0 [cexToggleEmail]) =
      [{ cexToggleEmail with action_items := some [⟨"file report", none, some false⟩] }] := by
  refine ⟨by decide, by decide⟩

/-- C9, amended: a single toggle flips exactly the `completed` field of
item `t` of the addressed email and changes nothing else; and whenever
the addressed item carries its completion flag (a present boolean, as
the data model intends), toggling twice restores the lists exactly. -/
theorem toggle_action_item_involution (eid : String) (t : Nat) (emails : List Email)
    (hflag : ∀ e ∈ emails, e.id = eid →
      optionAll (fun it => it.completed.isSome) ((e.action_items.getD [])[t]?) = true) :
    toggleActionItem eid t (toggleActionItem eid t emails) = emails ∧
    (∀ (i : Nat) (e : Email), emails[i]? = some e →
      (e.id ≠ eid → (toggleActionItem eid t emails)[i]? = some e) ∧
      (e.action_items = none → (toggleActionItem eid t emails)[i]? = some e) ∧
      (∀ items, e.id = eid → e.action_items = some items →
        (toggleActionItem eid t emails)[i]? =
          some { e with action_items := some (toggleCompleted t items) } ∧
        (∀ j, j ≠ t → (toggleCompleted t items)[j]? = items[j]?) ∧
        (∀ it, items[t]? = some it →
          (toggleCompleted t items)[t]? =
            some { it with completed := some (jsNot it.completed) }))) := by
  constructor
  · apply List.ext_getElem?
    intro i
    simp only [toggleActionItem, List.getElem?_map, Option.map_map]
    cases hi : emails[i]? with
    | none => rfl
    | some e =>
      have he : e ∈ emails := List.getElem?_mem hi
      simp only [Option.map_some', Function.comp_apply]
      by_cases hid : e.id = eid
      · cases hai : e.action_items with
        | none => simp [hid, hai]
        | some items =>
          have hflag' := hflag e he hid
          rw [hai, Option.getD_some] at hflag'
          have htc : toggleCompleted t (toggleCompleted t items) = items := by
            apply List.ext_getElem?
            intro j
            rw [toggleCompleted_getElem, toggleCompleted_getElem, Option.map_map]
            cases hj : items[j]? with
            | none => rfl
            | some it =>
              simp only [Option.map_some', Function.comp_apply]
              by_cases hjt : j = t
              · subst hjt
                rw [hj] at hflag'
                have hsome : it.completed.isSome = true := hflag'
                cases it with
                | mk task dl comp =>
                  cases comp with
                  | none => simp [optionAll] at hsome
                  | some b => simp [jsNot]
              · simp [hjt]
          cases e with
          | mk idf sender subject body ts rd cat ai src sn tor ccr tid mid =>
            have hid' : idf = eid := hid
            have hai' : ai = some items := hai
            subst hid'
            subst hai'
            simp [htc]
      · simp [hid]
  · intro i e hi
    refine ⟨?_, ?_, ?_⟩
    · intro hne
      simp [toggleActionItem, List.getElem?_map, hi, hne]
    · intro hnone
      by_cases hid : e.id = eid
      · simp [toggleActionItem, List.getElem?_map, hi, hid, hnone]
      · simp [toggleActionItem, List.getElem?_map, hi, hid]
    · intro items hid hsome
      refine ⟨?_, ?_, ?_⟩
      · simp [toggleActionItem, List.getElem?_map, hi, hid, hsome]
      · intro j hj
        rw [toggleCompleted_getElem]
        cases hjv : items[j]? with
        | none => rfl
        | some it => simp [hj]
      · intro it hit
        rw [toggleCompleted_getElem, hit]
        simp

/-- C9, witness: toggling a present flag twice is the identity on a
concrete store. -/
theorem toggle_action_item_involution_witness :
    toggleActionItem "w1" 0
      (toggleActionItem "w1" 0
        [{ baseEmail with id := "w1", action_items := some [⟨"t", none, some false⟩] }]) =
      [{ baseEmail with id := "w1", action_items := some [⟨"t", none, some false⟩] }] :=
  (toggle_action_item_involution "w1" 0
    [{ baseEmail with id := "w1", action_items := some [⟨"t", none, some false⟩] }]
    (by decide)).1

/-- C10: the composer never issues a send with an empty recipient list —
zero parsed recipients yield the error message and no API call, and any
attempted payload carries the nonempty parsed recipient list. -/
theorem composer_requires_recipient (toField ccField bccField subject body : String)
    (config : ComposerConfig) :
    (parseRecipients toField = [] →
      composerHandleSend toField ccField bccField subject body config =
        ComposerOutcome.rejected "At least one recipient is required.") ∧
    (∀ p, composerHandleSend toField ccField bccField subject body config =
        ComposerOutcome.attempted p →
      p.toRecipients = parseRecipients toField ∧ p.toRecipients ≠ []) := by
  constructor
  · intro h
    simp [composerHandleSend, h]
  · intro p hp
    unfold composerHandleSend at hp
    by_cases h : (parseRecipients toField).length = 0
    · rw [if_pos h] at hp
      cases hp
    · rw [if_neg h] at hp
      cases hp
      refine ⟨rfl, ?_⟩
      intro hnil
      exact h (by rw [show parseRecipients toField = [] from hnil]; rfl)

/-- C10, witness: a blank To field is rejected without a send, and a
parsed recipient passes through. -/
theorem composer_requires_recipient_witness :
    composerHandleSend " , " "" "" "subject" "body" ⟨none, none⟩ =
      ComposerOutcome.rejected "At least one recipient is required." :=
  (composer_requires_recipient " , " "" "" "subject" "body" ⟨none, none⟩).1 (by decide)

end EmailAgent
